import Mathlib

/-!
Verification of the lgres archive codec and the overlay merge engine.

A shallow embedding of the `lgres` resource-archive reader/writer and the
`resourceListMerger` overlay engine (packages `lgres` and `world` of the
repository), together with theorems settling the specification claims.

Conventions of the embedding:
* Byte streams are `List Nat` (each element a byte value).
* Go's `uint32` arithmetic is `Nat` arithmetic reduced modulo `2^32`
  (`wrap32`) at every operation where the Go code uses `uint32`.
* A Go function returning `(value, error)` becomes either
  `Except RErr α` (when exactly one of the two is set) or an explicit
  pair `Option α × Option RErr` (when the Go code can in principle
  produce any combination, as in `resourceListMerger.Block`).
* Go `io.Reader` values handed out by `Block` are modelled by the byte
  list that reading them to the end would produce, or the read-time
  error; hence a block lookup has type `Except RErr (Except RErr (List Nat))`:
  the outer layer is the error returned by the `Block` call itself, the
  inner layer the outcome of draining the returned reader.
-/

namespace LgRes

/-- Error values of the embedding, mirroring the error cases of the code:
`errSourceNil`, `errFormatMismatch`, decode/read failures from the serial
decoders, `resource.ErrResourceDoesNotExist`, the `"block index wrong"`
errors of the block functions, and the `"wrong number of blocks"` error of
the convenience `Write`. `ioError` stands for an arbitrary I/O error an
abstract block provider may raise. -/
inductive RErr where
  | sourceNil
  | formatMismatch
  | decodeError
  | resourceNotFound (id : Nat)
  | blockIndexWrong (index : Int) (blockCount : Nat)
  | invalidResourceShape (id : Nat)
  | ioError (n : Nat)
  deriving DecidableEq, Repr

/-- `uint32` reduction: Go unsigned 32-bit arithmetic wraps modulo `2^32`. -/
def wrap32 (n : Nat) : Nat := n % 4294967296

/-! ## Overlay merge engine (`world.resourceListMerger`)

A layer of the stack is one `resource.Resource`: its metadata fields and
its block provider.  Because `resourceListMerger.Block` calls a layer's
`Block(index)` twice — once to peek at the first byte, once to re-open the
block for the caller — and the two calls run against stateful streams, the
embedding records the outcome of each of the two calls separately
(`peek` for the first call, `reopen` for the second). -/

structure MergeLayer where
  Compound : Bool
  ContentType : Nat
  Compressed : Bool
  BlockCount : Nat
  /-- Result of the first `Block(index)` call (the peek phase): either an
  error or the byte content the returned reader would yield. -/
  peek : Int → Except RErr (List Nat)
  /-- Result of the second `Block(index)` call (the re-open phase). -/
  reopen : Int → Except RErr (List Nat)

/-- `resourceListMerger.Compound`: metadata comes from `view.list[0]`,
the lowest-priority layer.  (Go panics on an empty stack; the empty case
is given an arbitrary value here and no claim concerns it.) -/
def mergerCompound : List MergeLayer → Bool
  | [] => false
  | l :: _ => l.Compound

/-- `resourceListMerger.ContentType`: from `view.list[0]`. -/
def mergerContentType : List MergeLayer → Nat
  | [] => 0
  | l :: _ => l.ContentType

/-- `resourceListMerger.Compressed`: from `view.list[0]`. -/
def mergerCompressed : List MergeLayer → Bool
  | [] => false
  | l :: _ => l.Compressed

/-- `resourceListMerger.BlockCount`: fold of the Go loop
`if max < count { max = count }` over the layers, starting from `0`. -/
def mergerBlockCount (list : List MergeLayer) : Nat :=
  list.foldl (fun m l => if m < l.BlockCount then l.BlockCount else m) 0

/-- One iteration step of the `resourceListMerger.Block` loop, applied to
the layers in scan order (highest priority first — the Go loop walks
`layer` from `len(list)-1` down to `0` while `reader == nil`).  The
accumulator `err` is the Go `err` variable, which persists across
iterations once set and is overwritten whenever a re-open is executed. -/
def mergerBlockLoop (index : Int) : List MergeLayer → Option RErr →
    Option (List Nat) × Option RErr
  | [], err => (none, err)
  | l :: rest, err =>
    match l.peek index with
    | .error _ => mergerBlockLoop index rest err
    | .ok bs =>
      -- `read, _ := tempReader.Read(buf[:])`: one byte is read iff the
      -- peeked stream is non-empty.
      if bs = [] then mergerBlockLoop index rest err
      else
        match l.reopen index with
        | .ok bs2 => (some bs2, none)
        | .error e => mergerBlockLoop index rest (some e)

/-- `resourceListMerger.Block`: scan the layers last-to-first. -/
def mergerBlock (list : List MergeLayer) (index : Int) :
    Option (List Nat) × Option RErr :=
  mergerBlockLoop index list.reverse none

/-- A layer passes the peek test at `index` iff its `Block(index)` call
succeeds and the returned stream is non-empty (the `read == 1` check). -/
def layerProvides (l : MergeLayer) (index : Int) : Bool :=
  match l.peek index with
  | .ok bs => decide (bs ≠ [])
  | .error _ => false

/-- The content served when a layer's block is re-opened, if the re-open
succeeds. -/
def layerReopened (l : MergeLayer) (index : Int) : Option (List Nat) :=
  match l.reopen index with
  | .ok bs => some bs
  | .error _ => none

/-- A layer whose streams are deterministic: re-opening the block yields
the same outcome as the peek call did. -/
def consistentAt (l : MergeLayer) (index : Int) : Prop :=
  l.reopen index = l.peek index

/-! ## Byte-level decoding primitives

Modelled from the spec: the `serial` decoder package is not among the
provided sources; its little-endian integer decoding ("little-endian, by
convention of this archive family") is modelled directly on byte lists.
A read past the end of the available bytes is a decode failure. -/

/-- Little-endian `uint16` at the head of a byte list. -/
def readU16 : List Nat → Option (Nat × List Nat)
  | b0 :: b1 :: rest => some (b0 + 256 * b1, rest)
  | _ => none

/-- Little-endian `uint32` at the head of a byte list. -/
def readU32 : List Nat → Option (Nat × List Nat)
  | b0 :: b1 :: b2 :: b3 :: rest =>
    some (b0 + 256 * b1 + 65536 * b2 + 16777216 * b3, rest)
  | _ => none

/-- Little-endian `uint16` encoding. -/
def encU16 (n : Nat) : List Nat := [n % 256, n / 256 % 256]

/-- Little-endian `uint32` encoding. -/
def encU32 (n : Nat) : List Nat :=
  [n % 256, n / 256 % 256, n / 65536 % 256, n / 16777216 % 256]

/-! ## Directory entries

Modelled from the spec: the `resourceDirectoryEntry` struct and the
package constants (`headerString`, `commentTerminator`,
`resourceDirectoryFileOffsetPos`, `boundarySize`, the resource type
flags) are not among the provided sources.  The entry is modelled as a
record of its spec-named fields `(id, typeFlags, contentType,
packedLength, unpackedLength)`; the spec gives a 16-bit id and an 8-bit
content type and leaves the exact packing of the length fields open, so
the serialized form below uses `u16 id, u8 typeFlags, u8 contentType,
u32 packedLength, u32 unpackedLength` (12 bytes).  The compressed and
compound type flags are modelled as bits 0 and 1 of `typeFlags`.  The
header constants and the alignment boundary are kept as parameters. -/

structure DirEntry where
  id : Nat
  typeFlags : Nat
  contentType : Nat
  packedLength : Nat
  unpackedLength : Nat
  deriving DecidableEq, Repr

/-- Serialized size of one directory entry in the modelled layout. -/
def dirEntrySize : Nat := 12

/-- Decode one fixed-size directory entry. -/
def readDirEntry (bytes : List Nat) : Option (DirEntry × List Nat) := do
  let (id, r1) ← readU16 bytes
  match r1 with
  | tf :: ct :: r2 => do
    let (pl, r3) ← readU32 r2
    let (ul, r4) ← readU32 r3
    return ({ id := id, typeFlags := tf, contentType := ct,
              packedLength := pl, unpackedLength := ul }, r4)
  | _ => none

/-- Decode `count` consecutive directory entries. -/
def readDirEntries : Nat → List Nat → Option (List DirEntry)
  | 0, _ => some []
  | count + 1, bytes => do
    let (e, rest) ← readDirEntry bytes
    let es ← readDirEntries count rest
    return e :: es

/-! ## Header validation and directory decoding (`ReaderFrom` path) -/

/-- Zero-fill a partially read buffer to its allocated length (Go's
`make([]byte, n)` starts zeroed and `io.ReadFull` fills the prefix that
is available). -/
def zeroPad (bs : List Nat) (n : Nat) : List Nat :=
  bs ++ List.replicate (n - bs.length) 0

/-- `readAndVerifyHeader`: read `pos` bytes and a `uint32` directory
offset from the first `pos + 4` bytes of the source, compare the leading
bytes against `headerString ++ [commentTerminator]`, and return the
directory offset.  The byte comparison happens before the decoder's
first error is consulted, exactly as in the code. -/
def readAndVerifyHeader (hdr : List Nat) (term : Nat) (pos : Nat)
    (src : List Nat) : Except RErr Nat :=
  -- `data` is `zeroPad (src.take pos) pos`, `expected` is `hdr ++ [term]`.
  if (zeroPad (src.take pos) pos).take (hdr ++ [term]).length = hdr ++ [term] then
    if pos + 4 ≤ src.length then
      match readU32 (src.drop pos) with
      | some (dirOffset, _) => .ok dirOffset
      | none => .error .decodeError
    else .error .decodeError
  else .error .formatMismatch

/-- `readDirectoryAt`: at `dirOffset`, decode the directory header
(`firstResourceOffset` u32, `resourceCount` u16 — modelled from the
spec's field list, with a 16-bit count matching the 16-bit id space),
then `resourceCount` fixed-size entries.  Any truncation fails. -/
def readDirectoryAt (dirOffset : Nat) (src : List Nat) :
    Except RErr (Nat × List DirEntry) :=
  let hdrBytes := (src.drop dirOffset).take 6
  match readU32 hdrBytes with
  | none => .error .decodeError
  | some (fro, rest) =>
    match readU16 rest with
    | none => .error .decodeError
    | some (count, _) =>
      let listBytes := (src.drop (dirOffset + 6)).take (count * dirEntrySize)
      match readDirEntries count listBytes with
      | none => .error .decodeError
      | some dir => .ok (fro, dir)

/-! ## Resources and block providers -/

/-- A decoded `resource.Resource`: metadata plus the block provider.
`blockFunc` mirrors the Go closure: the outer `Except` is the error the
`Block` call itself returns, the inner one the outcome of draining the
returned reader. -/
structure Res where
  compound : Bool
  contentType : Nat
  compressed : Bool
  blockCount : Nat
  blockFunc : Int → Except RErr (Except RErr (List Nat))

/-- An entry of the decoded compound block table: `{start, size}`. -/
structure BlockEntry where
  start : Nat
  size : Nat
  deriving DecidableEq, Repr

/-- `Reader.readBlockList`, inner loop: decode `count` cumulative
end offsets, carrying `lastBlockEndOffset`.  The size is the Go `uint32`
subtraction `endOffset - lastBlockEndOffset`, which wraps. -/
def readBlockOffsets : Nat → Nat → List Nat → Option (List BlockEntry)
  | 0, _, _ => some []
  | count + 1, last, bytes => do
    let (endOffset, rest) ← readU32 bytes
    let es ← readBlockOffsets count endOffset rest
    return { start := last, size := wrap32 (endOffset + 4294967296 - last) } :: es

/-- `Reader.readBlockList`: a `uint16` block count, a `uint32`
`firstBlockOffset`, then one cumulative end offset per block. -/
def readBlockList (bytes : List Nat) : Option (Nat × List BlockEntry) := do
  let (blockCount, r1) ← readU16 bytes
  let (firstBlockOffset, r2) ← readU32 r1
  let es ← readBlockOffsets blockCount firstBlockOffset r2
  return (firstBlockOffset, es)

/-- The type of the modelled compression collaborator's decode side:
spec §6 treats it as an opaque byte-stream transform; draining the
decompressor either yields the decompressed bytes or a read error. -/
def Decomp : Type := List Nat → Except RErr (List Nat)

/-- Block service of a compound resource once the payload stream to read
from is known: `io.NewSectionReader(uncompressedReader,
int64(entry.start) - int64(firstBlockOffset), int64(entry.size))`,
drained.  For a table entry with `start ≥ firstBlockOffset` this yields
exactly the bytes of `[start - firstBlockOffset, start - firstBlockOffset
+ size)` that the payload has (reading past its end is a clean EOF).  A
corrupt table with `start < firstBlockOffset` gives a negative section
base: draining it errors on a `bytes.Reader` (the decompressed case) and
yields no bytes on a nested `SectionReader` (the raw case). -/
def serveBlock (payload : List Nat) (fromBytesReader : Bool)
    (firstBlockOffset : Nat) (e : BlockEntry) : Except RErr (List Nat) :=
  if e.start < firstBlockOffset then
    if fromBytesReader then .error .decodeError else .ok []
  else .ok ((payload.drop (e.start - firstBlockOffset)).take e.size)

/-- `Reader.newCompoundResourceReader`: decode the block table from the
resource window, then build the block function.  The window is the
section `[resourceStartOffset, resourceStartOffset + packedLength)` of
the source.  For a compressed resource the whole payload area is
decompressed (on first access in Go; the memoization is observationally
irrelevant for the pure `decomp`) and blocks are served from the
decompressed stream; otherwise they are sub-windows of the raw payload. -/
def newCompoundResourceReader (decomp : Decomp) (src : List Nat)
    (entry : DirEntry) (contentType : Nat) (compressed : Bool)
    (resourceStartOffset : Nat) : Except RErr Res :=
  let window := (src.drop resourceStartOffset).take entry.packedLength
  match readBlockList window with
  | none => .error .decodeError
  | some (firstBlockOffset, blockList) =>
    let blockCount := blockList.length
    let rawPayload := window.drop firstBlockOffset
    .ok { compound := true, contentType := contentType,
          compressed := compressed, blockCount := blockCount,
          blockFunc := fun index =>
            if index < 0 ∨ blockCount ≤ index then
              .error (.blockIndexWrong index blockCount)
            else
              let e := blockList.getD index.toNat ⟨0, 0⟩
              if compressed then
                match decomp rawPayload with
                | .error err => .error err
                | .ok d => .ok (serveBlock d true firstBlockOffset e)
              else .ok (serveBlock rawPayload false firstBlockOffset e) }

/-- `Reader.newSingleBlockResourceReader`: the single block is the raw
window (limited to `packedLength`), or, when compressed, the window fed
through the decompressor and limited to `unpackedLength`.  The Go
function itself never fails; errors of a compressed stream surface when
the returned reader is drained. -/
def newSingleBlockResourceReader (decomp : Decomp) (src : List Nat)
    (entry : DirEntry) (contentType : Nat) (compressed : Bool)
    (resourceStartOffset : Nat) : Res :=
  let window := (src.drop resourceStartOffset).take entry.packedLength
  { compound := false, contentType := contentType,
    compressed := compressed, blockCount := 1,
    blockFunc := fun index =>
      if index ≠ 0 then .error (.blockIndexWrong index 1)
      else if compressed then
        .ok (match decomp window with
             | .ok d => .ok (d.take entry.unpackedLength)
             | .error e => .error e)
      else .ok (.ok window) }

/-! ## The reader: construction, lookup, cache -/

/-- The `Reader` struct: the random-access source, the directory header
data, and the id → resource cache (a Go map, modelled as an association
list with most-recent insertion first). -/
structure Reader where
  source : List Nat
  firstResourceOffset : Nat
  directory : List DirEntry
  cache : List (Nat × Res)

/-- Lookup in the modelled cache map. -/
def cacheLookup (cache : List (Nat × Res)) (id : Nat) : Option Res :=
  match cache with
  | [] => none
  | (k, v) :: rest => if k = id then some v else cacheLookup rest id

/-- One alignment step of `findEntry`:
`startOffset += (boundarySize - (startOffset % boundarySize)) % boundarySize`
in `uint32` arithmetic (`b` is the `boundarySize` constant, kept as a
parameter since its value is not among the provided sources). -/
def alignOffset (b off : Nat) : Nat :=
  wrap32 (off + (b - off % b) % b)

/-- The running-offset advance past one non-matching entry:
`startOffset += cur.packedLength()` (wrapping), then the alignment step. -/
def advanceOffset (b off packedLength : Nat) : Nat :=
  alignOffset b (wrap32 (off + packedLength))

/-- `Reader.findEntry`, loop: linear scan stopping at the first entry
whose id matches; non-matching entries advance the running offset. -/
def findEntryLoop (b : Nat) (id : Nat) : List DirEntry → Nat →
    Nat × Option DirEntry
  | [], off => (off, none)
  | e :: rest, off =>
    if e.id = id then (off, some e)
    else findEntryLoop b id rest (advanceOffset b off e.packedLength)

/-- `Reader.findEntry`: the running offset starts at
`firstResourceOffset`. -/
def findEntry (b : Nat) (r : Reader) (id : Nat) : Nat × Option DirEntry :=
  findEntryLoop b id r.directory r.firstResourceOffset

/-- `ReaderFrom`: reject a nil source before any I/O, validate the
header, decode the directory, and only then build the reader with an
empty cache.  The result is the Go pair `(reader *Reader, err error)`. -/
def readerFrom (hdr : List Nat) (term : Nat) (pos : Nat)
    (source : Option (List Nat)) : Option Reader × Option RErr :=
  match source with
  | none => (none, some .sourceNil)
  | some src =>
    match readAndVerifyHeader hdr term pos src with
    | .error e => (none, some e)
    | .ok dirOffset =>
      match readDirectoryAt dirOffset src with
      | .error e => (none, some e)
      | .ok (fro, dir) =>
        (some { source := src, firstResourceOffset := fro,
                directory := dir, cache := [] }, none)

/-- The shape dispatch inside `Reader.Resource` (inline in the Go
body): extract the `compressed` and `compound` type flags and decode a
compound or single-block resource accordingly. -/
def decodeEntryRes (decomp : Decomp) (src : List Nat) (entry : DirEntry)
    (resourceStartOffset : Nat) : Except RErr Res :=
  if entry.typeFlags.testBit 1 then
    newCompoundResourceReader decomp src entry entry.contentType
      (entry.typeFlags.testBit 0) resourceStartOffset
  else
    .ok (newSingleBlockResourceReader decomp src entry entry.contentType
      (entry.typeFlags.testBit 0) resourceStartOffset)

/-- `Reader.Resource`: serve from the cache when present; otherwise
resolve the directory entry (`ResourceNotFound` when absent), decode the
resource by shape, and insert into the cache only on success.  The
result pairs the Go return values with the post-call reader state. -/
def readerResource (decomp : Decomp) (b : Nat) (r : Reader) (id : Nat) :
    (Option Res × Option RErr) × Reader :=
  match cacheLookup r.cache id with
  | some res => ((some res, none), r)
  | none =>
    match findEntry b r id with
    | (_, none) => ((none, some (.resourceNotFound id)), r)
    | (resourceStartOffset, some entry) =>
      match decodeEntryRes decomp r.source entry resourceStartOffset with
      | .ok res => ((some res, none), { r with cache := (id, res) :: r.cache })
      | .error e => ((none, some e), r)

/-! ## The convenience writer (`lgres.Write`)

`Write` walks the provider's id list, dispatching each resource to the
compound or the single-block path.  The staged `Writer`
(`NewWriter` / `CreateResource` / `CreateCompoundResource` /
`CreateBlock` / `Finish`) is not among the provided sources; modelled
from the spec, its staging operations succeed and the bytes emitted for
the resources are recorded as an event trace.  The provider is the list
of `(id, Resource(id) result)` pairs in `IDs()` order. -/

/-- A provider entry as `Write` consumes it: metadata and the outcomes
of the `Block(0..BlockCount-1)` calls (`BlockCount` is the length). -/
structure ProvEntry where
  compound : Bool
  contentType : Nat
  compressed : Bool
  blocks : List (Except RErr (List Nat))

/-- Events of the modelled writer: creation of a staged resource and the
byte runs copied into it. -/
inductive WEvent where
  | createResource (id : Nat) (contentType : Nat) (compressed : Bool)
  | createCompound (id : Nat) (contentType : Nat) (compressed : Bool)
  | blockData (bytes : List Nat)
  deriving DecidableEq, Repr

/-- `copyBlocks`: drain each block in index order into the writer; an
error aborts after the blocks already copied.  Returns the trace of
copied block contents and the error, if any. -/
def copyBlocksM : List (Except RErr (List Nat)) →
    List (List Nat) × Option RErr
  | [] => ([], none)
  | .error e :: _ => ([], some e)
  | .ok bs :: rest =>
    let (t, e) := copyBlocksM rest
    (bs :: t, e)

/-- The per-entry loop of `Write`.  A compound entry goes through
`CreateCompoundResource` and `copyBlocks`; a non-compound entry with
exactly one block goes through `CreateResource` and `copyBlocks`; any
other non-compound entry aborts with the `InvalidResourceShape` error
before anything is staged for it.  A failed `Resource(id)` lookup aborts
with that error. -/
def writeLoop : List (Nat × Except RErr ProvEntry) →
    List WEvent × Option RErr
  | [] => ([], none)
  | (_, .error e) :: _ => ([], some e)
  | (id, .ok entry) :: rest =>
    if entry.compound then
      match copyBlocksM entry.blocks with
      | (copied, some e) =>
        (WEvent.createCompound id entry.contentType entry.compressed ::
          copied.map WEvent.blockData, some e)
      | (copied, none) =>
        match writeLoop rest with
        | (t, e) =>
          (WEvent.createCompound id entry.contentType entry.compressed ::
            copied.map WEvent.blockData ++ t, e)
    else if entry.blocks.length = 1 then
      match copyBlocksM entry.blocks with
      | (copied, some e) =>
        (WEvent.createResource id entry.contentType entry.compressed ::
          copied.map WEvent.blockData, some e)
      | (copied, none) =>
        match writeLoop rest with
        | (t, e) =>
          (WEvent.createResource id entry.contentType entry.compressed ::
            copied.map WEvent.blockData ++ t, e)
    else ([], some (.invalidResourceShape id))

/-- `Write`: the loop over the provider followed by `Finish` (modelled
as succeeding, being part of the staged writer outside the sources). -/
def write (provider : List (Nat × Except RErr ProvEntry)) :
    List WEvent × Option RErr :=
  writeLoop provider

/-! ## Concrete fixtures used by counterexamples and witnesses -/

/-- The spec's §3 formula, modelled from the spec's words for
comparison: a preceding entry contributes its `packedLength` rounded up
to the next multiple of the alignment boundary, and the start offset is
`firstResourceOffset` plus the sum of those aligned lengths. -/
def specAlignedLength (b n : Nat) : Nat := n + (b - n % b) % b

/-- An identity decompressor, used where a concrete `Decomp` value is
needed and compression is not involved. -/
def idDecomp : Decomp := fun bs => .ok bs

/-- A decompressor that always fails, as a truncated or corrupt
compressed payload makes the real one do. -/
def failDecomp : Decomp := fun _ => .error .decodeError

/-- The block entries `readBlockList` derives from a cumulative
end-offset list, anchored at `last`: each entry starts at the previous
cumulative end and spans up to its own. -/
def entriesFrom : Nat → List Nat → List BlockEntry
  | _, [] => []
  | last, e :: es =>
    { start := last, size := wrap32 (e + 4294967296 - last) } :: entriesFrom e es

/-- The serialized block table of a compound resource (spec §6 wire
format): a `uint16` block count, a `uint32` `firstBlockOffset`, one
`uint32` cumulative end offset per block, then the remaining window
bytes. -/
def mkBlockWindow (ends : List Nat) (fbo : Nat) (extra : List Nat) : List Nat :=
  encU16 ends.length ++ encU32 fbo ++ (ends.map encU32).flatten ++ extra

/-- Directory entry with id 1 and packed length 4. -/
def entryA : DirEntry := ⟨1, 0, 0, 4, 4⟩

/-- Directory entry with id 2. -/
def entryB : DirEntry := ⟨2, 0, 0, 0, 0⟩

/-- A reader whose `firstResourceOffset` (2) is not aligned to the
boundary (4). -/
def readerUnaligned : Reader := ⟨[], 2, [entryA, entryB], []⟩

/-- Directory entry of a plain single-block resource with id 5 and
three content bytes. -/
def entrySimple : DirEntry := ⟨5, 0, 7, 3, 3⟩

/-- A reader over a three-byte source holding `entrySimple` at offset
0, with an empty cache. -/
def readerSimple : Reader := ⟨[1, 1, 1], 0, [entrySimple], []⟩

/-- The resource decoded for `entrySimple`. -/
def resSimple : Res :=
  newSingleBlockResourceReader idDecomp [1, 1, 1] entrySimple
    entrySimple.contentType (entrySimple.typeFlags.testBit 0) 0

/-- `readerSimple` after the first successful `Resource(5)` call. -/
def readerCached : Reader := ⟨[1, 1, 1], 0, [entrySimple], [(5, resSimple)]⟩

/-- The concrete compound window of the witness: two blocks with
cumulative ends 18 and 21 anchored at `firstBlockOffset` 14 (the table
itself is 14 bytes), payload `[1..7]`. -/
def cmpWindow : List Nat := mkBlockWindow [18, 21] 14 [1, 2, 3, 4, 5, 6, 7]

/-- Directory entry describing `cmpWindow` as a compound resource. -/
def cmpEntry : DirEntry := ⟨3, 2, 0, cmpWindow.length, 0⟩

/-- The resource decoded from `cmpWindow` (uncompressed). -/
def cmpRes : Res :=
  (newCompoundResourceReader idDecomp cmpWindow cmpEntry 0 false 0).toOption.getD
    (newSingleBlockResourceReader idDecomp [] cmpEntry 0 false 0)

/-- The resource decoded from `cmpWindow` as a *compressed* compound
resource over the always-failing decompressor. -/
def cmpResFail : Res :=
  (newCompoundResourceReader failDecomp cmpWindow cmpEntry 0 true 0).toOption.getD
    (newSingleBlockResourceReader failDecomp [] cmpEntry 0 false 0)

/-- A source whose header region is valid (magic `[76, 71]`, terminator
26, directory offset at byte 8) but whose directory offset 100 points
past the end of the source. -/
def srcBadDir : List Nat := [76, 71, 26, 0, 0, 0, 0, 0, 100, 0, 0, 0]

/-- A layer whose block 0 is `[0x00, 0x07]`: non-empty, but with a zero
leading byte. -/
def layerZeroLead : MergeLayer :=
  ⟨false, 0, false, 1, fun _ => .ok [0, 7], fun _ => .ok [0, 7]⟩

/-- A layer whose block content is `[0x09, 0x01]` (the spec's merge
example). -/
def layerNine : MergeLayer :=
  ⟨false, 1, false, 1, fun _ => .ok [9, 1], fun _ => .ok [9, 1]⟩

/-- A layer whose blocks are all empty. -/
def layerEmpty : MergeLayer :=
  ⟨false, 2, false, 1, fun _ => .ok [], fun _ => .ok []⟩

/-- A layer whose `Block` calls fail during the peek phase. -/
def layerPeekErr : MergeLayer :=
  ⟨false, 3, false, 1, fun _ => .error (.ioError 1), fun _ => .ok [5, 5]⟩

/-- A layer whose peek succeeds on a non-empty block but whose re-open
call fails. -/
def layerReopenErr : MergeLayer :=
  ⟨false, 4, false, 1, fun _ => .ok [3], fun _ => .error (.ioError 2)⟩

/-- A compound layer advertising five blocks. -/
def layerCount5 : MergeLayer :=
  ⟨true, 9, true, 5, fun _ => .ok [], fun _ => .ok []⟩

/-! ## Lemmas on the merge engine -/

/-- A layer that fails the peek test is skipped by the scan loop,
leaving the carried error untouched. -/
theorem mergerBlockLoop_skip (index : Int) (l : MergeLayer)
    (h : layerProvides l index = false) (rest : List MergeLayer)
    (err : Option RErr) :
    mergerBlockLoop index (l :: rest) err = mergerBlockLoop index rest err := by
  unfold layerProvides at h
  cases hp : l.peek index with
  | error e =>
    simp only [mergerBlockLoop, hp]
  | ok bs =>
    rw [hp] at h
    simp only [decide_eq_false_iff_not, ne_eq, not_not] at h
    subst h
    simp [mergerBlockLoop, hp]

/-- On a stack of layers whose streams are deterministic, the scan loop
returns the re-opened block of the first layer (in scan order) passing
the peek test, and no error. -/
theorem mergerBlockLoop_consistent (index : Int) :
    ∀ ls : List MergeLayer, (∀ l ∈ ls, consistentAt l index) →
    mergerBlockLoop index ls none =
      ((ls.find? (fun l => layerProvides l index)).bind
        (fun l => layerReopened l index), none) := by
  intro ls
  induction ls with
  | nil => intro _; rfl
  | cons l rest ih =>
    intro hcons
    have hl : consistentAt l index := hcons l (List.mem_cons_self l rest)
    have hrest : ∀ x ∈ rest, consistentAt x index :=
      fun x hx => hcons x (List.mem_cons_of_mem l hx)
    by_cases hp : layerProvides l index = true
    · have hp0 := hp
      unfold layerProvides at hp0
      cases hpk : l.peek index with
      | error e => rw [hpk] at hp0; simp at hp0
      | ok bs =>
        rw [hpk] at hp0
        have hbs : bs ≠ [] := by simpa using hp0
        have hro : l.reopen index = .ok bs := by
          rw [hl, hpk]
        have hfind : (l :: rest).find? (fun l => layerProvides l index) = some l :=
          List.find?_cons_of_pos rest hp
        simp only [mergerBlockLoop, hpk, if_neg hbs, hro, hfind]
        simp [layerReopened, hro]
    · have hp' : layerProvides l index = false := by
        simpa using hp
      rw [mergerBlockLoop_skip index l hp' rest none, ih hrest,
        List.find?_cons_of_neg]
      simp [hp']

/-- Removing a layer whose peek call errors at `index` does not change
the scan loop's outcome. -/
theorem mergerBlockLoop_drop_error (index : Int) (l : MergeLayer) (e : RErr)
    (hl : l.peek index = .error e) :
    ∀ (pre post : List MergeLayer) (err : Option RErr),
    mergerBlockLoop index (pre ++ l :: post) err =
      mergerBlockLoop index (pre ++ post) err := by
  intro pre
  induction pre with
  | nil =>
    intro post err
    simp only [List.nil_append]
    simp only [mergerBlockLoop, hl]
  | cons x pre' ih =>
    intro post err
    simp only [List.cons_append]
    simp only [mergerBlockLoop]
    cases hx : x.peek index with
    | error e' => exact ih post err
    | ok bs =>
      by_cases hb : bs = []
      · simp only [if_pos hb]
        exact ih post err
      · simp only [if_neg hb]
        cases x.reopen index with
        | ok bs2 => rfl
        | error e2 => exact ih post (some e2)

/-- Any error the scan loop reports was either carried in or produced by
the re-open call of a layer whose peek succeeded on a non-empty block. -/
theorem mergerBlockLoop_error_source (index : Int) :
    ∀ (ls : List MergeLayer) (err : Option RErr) (e : RErr),
    (mergerBlockLoop index ls err).2 = some e →
    err = some e ∨
      ∃ l ∈ ls, ∃ bs, l.peek index = .ok bs ∧ bs ≠ [] ∧
        l.reopen index = .error e := by
  intro ls
  induction ls with
  | nil => intro err e h; exact Or.inl h
  | cons l rest ih =>
    intro err e h
    simp only [mergerBlockLoop] at h
    cases hp : l.peek index with
    | error e' =>
      rw [hp] at h
      rcases ih err e h with h1 | ⟨x, hx, hrest⟩
      · exact Or.inl h1
      · exact Or.inr ⟨x, List.mem_cons_of_mem l hx, hrest⟩
    | ok bs =>
      rw [hp] at h
      cases bs with
      | nil =>
        simp only [if_pos rfl] at h
        rcases ih err e h with h1 | ⟨x, hx, hrest⟩
        · exact Or.inl h1
        · exact Or.inr ⟨x, List.mem_cons_of_mem l hx, hrest⟩
      | cons b bs' =>
        simp only [List.cons_ne_nil, if_false] at h
        cases hro : l.reopen index with
        | ok bs2 => rw [hro] at h; simp at h
        | error e2 =>
          rw [hro] at h
          rcases ih (some e2) e h with h1 | ⟨x, hx, hrest⟩
          · rcases h1 with h1
            exact Or.inr ⟨l, List.mem_cons_self l rest,
              b :: bs', hp, List.cons_ne_nil b bs', by
                rw [hro]; injection h1 with h1; rw [h1]⟩
          · exact Or.inr ⟨x, List.mem_cons_of_mem l hx, hrest⟩

/-- The scan loop returns `(none, err)` when every layer fails the peek
test. -/
theorem mergerBlockLoop_all_skip (index : Int) :
    ∀ ls : List MergeLayer, (∀ l ∈ ls, layerProvides l index = false) →
    ∀ err, mergerBlockLoop index ls err = (none, err) := by
  intro ls
  induction ls with
  | nil => intro _ err; rfl
  | cons l rest ih =>
    intro h err
    rw [mergerBlockLoop_skip index l (h l (List.mem_cons_self l rest)) rest err]
    exact ih (fun x hx => h x (List.mem_cons_of_mem l hx)) err

/-! ## Lemmas on the Go max fold of `BlockCount` -/

/-- The accumulator never decreases, and every visited layer's count is
bounded by the fold's result. -/
theorem blockCountFold_le :
    ∀ (ls : List MergeLayer) (acc : Nat),
    acc ≤ ls.foldl (fun m l => if m < l.BlockCount then l.BlockCount else m) acc ∧
    ∀ x ∈ ls,
      x.BlockCount ≤
        ls.foldl (fun m l => if m < l.BlockCount then l.BlockCount else m) acc := by
  intro ls
  induction ls with
  | nil => intro acc; exact ⟨Nat.le_refl acc, by intro x hx; cases hx⟩
  | cons l rest ih =>
    intro acc
    simp only [List.foldl_cons]
    set acc' := if acc < l.BlockCount then l.BlockCount else acc with hacc'
    have h1 : acc ≤ acc' := by
      rw [hacc']; split <;> omega
    have h2 : l.BlockCount ≤ acc' := by
      rw [hacc']; split <;> omega
    refine ⟨Nat.le_trans h1 (ih acc').1, ?_⟩
    intro x hx
    rcases List.mem_cons.mp hx with hx | hx
    · rw [hx]; exact Nat.le_trans h2 (ih acc').1
    · exact (ih acc').2 x hx

/-- The fold's result is either the initial accumulator or the block
count of one of the layers. -/
theorem blockCountFold_mem :
    ∀ (ls : List MergeLayer) (acc : Nat),
    ls.foldl (fun m l => if m < l.BlockCount then l.BlockCount else m) acc = acc ∨
    ∃ x ∈ ls,
      ls.foldl (fun m l => if m < l.BlockCount then l.BlockCount else m) acc =
        x.BlockCount := by
  intro ls
  induction ls with
  | nil => intro acc; exact Or.inl rfl
  | cons l rest ih =>
    intro acc
    simp only [List.foldl_cons]
    by_cases hc : acc < l.BlockCount
    · simp only [hc, if_true]
      rcases ih l.BlockCount with h | ⟨x, hx, h⟩
      · exact Or.inr ⟨l, List.mem_cons_self l rest, h⟩
      · exact Or.inr ⟨x, List.mem_cons_of_mem l hx, h⟩
    · simp only [hc, if_false]
      rcases ih acc with h | ⟨x, hx, h⟩
      · exact Or.inl h
      · exact Or.inr ⟨x, List.mem_cons_of_mem l hx, h⟩

/-! ## Lemmas on `findEntry` -/

/-- The linear scan stops at the first matching entry, having advanced
the running offset once per preceding non-matching entry. -/
theorem findEntryLoop_first_match (b id : Nat) :
    ∀ (pre : List DirEntry) (e : DirEntry) (post : List DirEntry) (off : Nat),
    e.id = id → (∀ x ∈ pre, x.id ≠ id) →
    findEntryLoop b id (pre ++ e :: post) off =
      (pre.foldl (fun o x => advanceOffset b o x.packedLength) off, some e) := by
  intro pre
  induction pre with
  | nil =>
    intro e post off he _
    simp [findEntryLoop, he]
  | cons x pre' ih =>
    intro e post off he hpre
    have hx : x.id ≠ id := hpre x (List.mem_cons_self x pre')
    simp only [List.cons_append, findEntryLoop, if_neg hx, List.foldl_cons]
    exact ih e post _ he (fun y hy => hpre y (List.mem_cons_of_mem x hy))

/-- A scan over a directory with no matching entry returns no entry,
with the running offset advanced past every entry. -/
theorem findEntryLoop_no_match (b id : Nat) :
    ∀ (dir : List DirEntry) (off : Nat), (∀ x ∈ dir, x.id ≠ id) →
    findEntryLoop b id dir off =
      (dir.foldl (fun o x => advanceOffset b o x.packedLength) off, none) := by
  intro dir
  induction dir with
  | nil => intro off _; rfl
  | cons x rest ih =>
    intro off h
    have hx : x.id ≠ id := h x (List.mem_cons_self x rest)
    simp only [findEntryLoop, if_neg hx, List.foldl_cons]
    exact ih _ (fun y hy => h y (List.mem_cons_of_mem x hy))

/-! ## Claim C2 -/

/-- Claim C2, counterexample: With boundary 4 and
`firstResourceOffset = 2`, the claim's formula `firstResourceOffset +
Σ(aligned packedLength of preceding entries)` gives `2 + 4 = 6` for the
entry with id 2, but `findEntry` — which rounds the *running offset*,
not each `packedLength` — resolves it to 8. -/
theorem findEntry_offset_differs_from_aligned_length_sum :
    findEntry 4 readerUnaligned 2 = (8, some entryB) ∧
    readerUnaligned.firstResourceOffset +
      specAlignedLength 4 entryA.packedLength = 6 ∧
    (findEntry 4 readerUnaligned 2).1 ≠
      readerUnaligned.firstResourceOffset +
        specAlignedLength 4 entryA.packedLength := by
  refine ⟨?_, rfl, ?_⟩ <;> decide

/-- Claim C2, amended: `findEntry` resolves a resource's start offset by
a running offset that starts at `firstResourceOffset` and, for each
preceding non-matching directory entry, is advanced by that entry's
`packedLength` and then rounded up to the next alignment boundary (in
`uint32` arithmetic); the first directory entry matching the ID
determines the result, shadowing later duplicates, and an ID matching
no entry yields the `ResourceNotFound` error from `Resource(id)`, the
partially computed offset being discarded. -/
theorem findEntry_running_offset_first_match (b : Nat) (r : Reader)
    (id : Nat) (decomp : Decomp) :
    (∀ pre e post, r.directory = pre ++ e :: post → e.id = id →
      (∀ x ∈ pre, x.id ≠ id) →
      findEntry b r id =
        (pre.foldl (fun o x => advanceOffset b o x.packedLength)
          r.firstResourceOffset, some e)) ∧
    ((∀ x ∈ r.directory, x.id ≠ id) → cacheLookup r.cache id = none →
      readerResource decomp b r id = ((none, some (.resourceNotFound id)), r)) := by
  constructor
  · intro pre e post hdir he hpre
    unfold findEntry
    rw [hdir]
    exact findEntryLoop_first_match b id pre e post r.firstResourceOffset he hpre
  · intro hmiss hcache
    have hfe : findEntry b r id =
        (r.directory.foldl (fun o x => advanceOffset b o x.packedLength)
          r.firstResourceOffset, none) :=
      findEntryLoop_no_match b id r.directory r.firstResourceOffset hmiss
    simp only [readerResource, hcache, hfe]

/-- Claim C2, witness: In `readerUnaligned`, id 2 sits behind one
non-matching entry and resolves to the running offset
`advanceOffset 4 2 4 = 8`; looking up the absent id 9 yields
`ResourceNotFound` and leaves the reader unchanged. -/
theorem findEntry_running_offset_first_match_witness :
    findEntry 4 readerUnaligned 2 = (advanceOffset 4 2 4, some entryB) ∧
    readerResource idDecomp 4 readerUnaligned 9 =
      ((none, some (.resourceNotFound 9)), readerUnaligned) := by
  refine ⟨?_, ?_⟩
  · exact (findEntry_running_offset_first_match 4 readerUnaligned 2 idDecomp).1
      [entryA] entryB [] rfl rfl (by decide)
  · exact (findEntry_running_offset_first_match 4 readerUnaligned 9 idDecomp).2
      (by decide) rfl

/-! ## Claim C4 -/

/-- Claim C4: `Resource(id)` returns the cached instance when one exists
(leaving the reader unchanged), so a second call after any successful
call returns the very same instance; an instance is inserted into the
cache only on success, and a failed call leaves the reader's cache
exactly as it was. -/
theorem resource_cache_memoization (decomp : Decomp) (b : Nat) (r : Reader)
    (id : Nat) :
    (∀ res, cacheLookup r.cache id = some res →
      readerResource decomp b r id = ((some res, none), r)) ∧
    (∀ res r1, readerResource decomp b r id = ((some res, none), r1) →
      readerResource decomp b r1 id = ((some res, none), r1)) ∧
    (∀ o e r1, readerResource decomp b r id = ((o, some e), r1) →
      r1 = r ∧ o = none) := by
  refine ⟨?_, ?_, ?_⟩
  · intro res h
    simp only [readerResource, h]
  · intro res r1 h
    cases hcache : cacheLookup r.cache id with
    | some res' =>
      simp only [readerResource, hcache] at h
      injection h with h1 h2
      injection h1 with h1a h1b
      injection h1a with h1a
      subst h2
      simp only [readerResource, hcache, h1a]
    | none =>
      simp only [readerResource, hcache] at h
      rcases hfe : findEntry b r id with ⟨off, oe⟩
      simp only [hfe] at h
      cases oe with
      | none => simp at h
      | some entry =>
        cases hdec : decodeEntryRes decomp r.source entry off with
        | error e => simp [hdec] at h
        | ok res' =>
          simp only [hdec] at h
          injection h with h1 h2
          injection h1 with h1a h1b
          injection h1a with h1a
          subst h1a
          rw [← h2]
          simp [readerResource, cacheLookup]
  · intro o e r1 h
    cases hcache : cacheLookup r.cache id with
    | some res' =>
      simp only [readerResource, hcache] at h
      simp at h
    | none =>
      rcases hfe : findEntry b r id with ⟨off, oe⟩
      cases oe with
      | none =>
        simp only [readerResource, hcache, hfe] at h
        injection h with h1 h2
        injection h1 with h1a h1b
        exact ⟨h2.symm, h1a.symm⟩
      | some entry =>
        cases hdec : decodeEntryRes decomp r.source entry off with
        | ok res' =>
          simp only [readerResource, hcache, hfe, hdec] at h
          simp at h
        | error e' =>
          simp only [readerResource, hcache, hfe, hdec] at h
          injection h with h1 h2
          injection h1 with h1a h1b
          exact ⟨h2.symm, h1a.symm⟩

/-- Claim C4, witness: After a successful `Resource(5)` on `readerSimple`,
the call repeated on the resulting state returns the same instance and
the same state; and a failed `Resource(9)` leaves its reader unchanged
with no instance. -/
theorem resource_cache_memoization_witness :
    readerResource idDecomp 4 readerCached 5 =
      ((some resSimple, none), readerCached) ∧
    (readerSimple = readerSimple ∧ (none : Option Res) = none) := by
  refine ⟨?_, ?_⟩
  · exact (resource_cache_memoization idDecomp 4 readerSimple 5).2.1
      resSimple readerCached rfl
  · exact (resource_cache_memoization idDecomp 4 readerSimple 9).2.2
      none (.resourceNotFound 9) readerSimple rfl

/-! ## Lemmas on block-table decoding -/

/-- Decoding an encoded `uint16` recovers the value and the rest. -/
theorem readU16_enc (n : Nat) (rest : List Nat) (h : n < 65536) :
    readU16 (encU16 n ++ rest) = some (n, rest) := by
  simp only [encU16, List.cons_append, List.nil_append, readU16]
  have hn : n % 256 + 256 * (n / 256 % 256) = n := by omega
  rw [hn]

/-- Decoding an encoded `uint32` recovers the value and the rest. -/
theorem readU32_enc (n : Nat) (rest : List Nat) (h : n < 4294967296) :
    readU32 (encU32 n ++ rest) = some (n, rest) := by
  simp only [encU32, List.cons_append, List.nil_append, readU32]
  have hn : n % 256 + 256 * (n / 256 % 256) + 65536 * (n / 65536 % 256) +
      16777216 * (n / 16777216 % 256) = n := by omega
  rw [hn]

/-- `entriesFrom` yields one entry per cumulative end offset. -/
theorem entriesFrom_length :
    ∀ (ends : List Nat) (last : Nat), (entriesFrom last ends).length = ends.length := by
  intro ends
  induction ends with
  | nil => intro last; rfl
  | cons e es ih => intro last; simp [entriesFrom, ih]

/-- Decoding the serialized cumulative offsets yields `entriesFrom`. -/
theorem readBlockOffsets_enc :
    ∀ (ends : List Nat) (last : Nat) (rest : List Nat),
    (∀ e ∈ ends, e < 4294967296) →
    readBlockOffsets ends.length last ((ends.map encU32).flatten ++ rest) =
      some (entriesFrom last ends) := by
  intro ends
  induction ends with
  | nil => intro last rest _; rfl
  | cons e es ih =>
    intro last rest h
    have he : e < 4294967296 := h e (List.mem_cons_self e es)
    have hes : ∀ x ∈ es, x < 4294967296 :=
      fun x hx => h x (List.mem_cons_of_mem e hx)
    simp only [List.map_cons, List.flatten_cons, List.length_cons,
      List.append_assoc]
    simp only [readBlockOffsets, Option.bind_eq_bind]
    rw [readU32_enc e _ he]
    simp only [Option.some_bind]
    rw [ih e rest hes]
    rfl

/-- `readBlockList` on a serialized table recovers the anchor and the
derived entries. -/
theorem readBlockList_mk (ends : List Nat) (fbo : Nat) (extra : List Nat)
    (hc : ends.length < 65536) (hf : fbo < 4294967296)
    (he : ∀ e ∈ ends, e < 4294967296) :
    readBlockList (mkBlockWindow ends fbo extra) =
      some (fbo, entriesFrom fbo ends) := by
  unfold mkBlockWindow readBlockList
  simp only [List.append_assoc]
  simp only [readU16_enc _ _ hc, Option.bind_eq_bind, Option.some_bind,
    readU32_enc _ _ hf, readBlockOffsets_enc ends fbo extra he]
  rfl

/-- `getD` of an in-range index is an element of the list. -/
theorem getD_mem_of_lt : ∀ (l : List Nat) (i : Nat), i < l.length → l.getD i 0 ∈ l := by
  intro l
  induction l with
  | nil => intro i h; cases h
  | cons x xs ih =>
    intro i h
    cases i with
    | zero => exact List.mem_cons_self x xs
    | succ j =>
      exact List.mem_cons_of_mem x (ih j (Nat.lt_of_succ_lt_succ h))

/-- Below a monotone chain's anchor, every cumulative offset (including
the anchor itself) is at least the anchor. -/
theorem chain_le_getD (fbo : Nat) (ends : List Nat)
    (hchain : List.Chain (· ≤ ·) fbo ends) :
    ∀ i, i < ends.length + 1 → fbo ≤ (fbo :: ends).getD i 0 := by
  intro i hi
  cases i with
  | zero => exact Nat.le_refl fbo
  | succ j =>
    have hp : List.Pairwise (· ≤ ·) (fbo :: ends) :=
      List.chain_iff_pairwise.mp hchain
    have hall : ∀ x ∈ ends, fbo ≤ x := (List.pairwise_cons.mp hp).1
    have : (fbo :: ends).getD (j + 1) 0 = ends.getD j 0 := rfl
    rw [this]
    exact hall _ (getD_mem_of_lt ends j (Nat.lt_of_succ_lt_succ hi))

/-- On a monotone chain of `uint32` offsets, the derived entries are
exactly the claim's ranges: entry `i` starts at the previous cumulative
end (the anchor for `i = 0`) and its size is the difference of
consecutive cumulative ends. -/
theorem entriesFrom_getD :
    ∀ (ends : List Nat) (last : Nat),
    (∀ e ∈ ends, e < 4294967296) → last < 4294967296 →
    List.Chain (· ≤ ·) last ends →
    ∀ i, i < ends.length →
    (entriesFrom last ends).getD i ⟨0, 0⟩ =
      ⟨(last :: ends).getD i 0, ends.getD i 0 - (last :: ends).getD i 0⟩ := by
  intro ends
  induction ends with
  | nil => intro last _ _ _ i hi; cases hi
  | cons e es ih =>
    intro last hlt hlast hchain i hi
    rcases List.chain_cons.mp hchain with ⟨hle, htail⟩
    have helt : e < 4294967296 := hlt e (List.mem_cons_self e es)
    cases i with
    | zero =>
      simp only [entriesFrom, List.getD_cons_zero]
      have : wrap32 (e + 4294967296 - last) = e - last := by
        unfold wrap32
        omega
      rw [this]
    | succ j =>
      simp only [entriesFrom, List.getD_cons_succ]
      exact ih e (fun x hx => hlt x (List.mem_cons_of_mem e hx)) helt htail j
        (Nat.lt_of_succ_lt_succ hi)

/-! ## Claim C5 -/

/-- Claim C5: For every compound resource, the block table decodes as a
block count, a `firstBlockOffset`, then one cumulative end offset per
block; block `i`'s range is `[previousCumulativeEnd, cumulativeEnd i)`
anchored at `firstBlockOffset` (block 0 starts at `firstBlockOffset`,
each size is the difference of consecutive cumulative ends), and
`Block(i)` serves exactly that range relative to the payload base — the
raw payload when uncompressed, the decompressed payload stream when
compressed. -/
theorem compound_block_table_cumulative (decomp : Decomp)
    (ends : List Nat) (fbo : Nat) (extra pre post : List Nat)
    (dirE : DirEntry) (ct : Nat)
    (hc : ends.length < 65536) (hf : fbo < 4294967296)
    (he : ∀ e ∈ ends, e < 4294967296)
    (hchain : List.Chain (· ≤ ·) fbo ends)
    (hpl : dirE.packedLength = (mkBlockWindow ends fbo extra).length) :
    readBlockList (mkBlockWindow ends fbo extra) =
      some (fbo, entriesFrom fbo ends) ∧
    (entriesFrom fbo ends).length = ends.length ∧
    (∀ i, i < ends.length →
      (entriesFrom fbo ends).getD i ⟨0, 0⟩ =
        ⟨(fbo :: ends).getD i 0, ends.getD i 0 - (fbo :: ends).getD i 0⟩) ∧
    (∀ res, newCompoundResourceReader decomp
        (pre ++ mkBlockWindow ends fbo extra ++ post) dirE ct false
        pre.length = .ok res →
      res.blockCount = ends.length ∧
      ∀ i, i < ends.length →
        res.blockFunc (i : Int) = .ok (.ok
          ((((mkBlockWindow ends fbo extra).drop fbo).drop
              ((fbo :: ends).getD i 0 - fbo)).take
            (ends.getD i 0 - (fbo :: ends).getD i 0)))) ∧
    (∀ res d, newCompoundResourceReader decomp
        (pre ++ mkBlockWindow ends fbo extra ++ post) dirE ct true
        pre.length = .ok res →
      decomp ((mkBlockWindow ends fbo extra).drop fbo) = .ok d →
      ∀ i, i < ends.length →
        res.blockFunc (i : Int) = .ok (.ok
          ((d.drop ((fbo :: ends).getD i 0 - fbo)).take
            (ends.getD i 0 - (fbo :: ends).getD i 0)))) := by
  have hlist := readBlockList_mk ends fbo extra hc hf he
  have hwin : ((pre ++ mkBlockWindow ends fbo extra ++ post).drop
      pre.length).take dirE.packedLength = mkBlockWindow ends fbo extra := by
    rw [List.append_assoc, List.drop_left, hpl, List.take_left]
  refine ⟨hlist, entriesFrom_length ends fbo, ?_, ?_, ?_⟩
  · exact entriesFrom_getD ends fbo he hf hchain
  · intro res h
    simp only [newCompoundResourceReader, hwin, hlist] at h
    injection h with h
    subst h
    refine ⟨entriesFrom_length ends fbo, ?_⟩
    intro i hi
    have hrange : ¬((i : Int) < 0 ∨ ((entriesFrom fbo ends).length : Int) ≤ (i : Int)) := by
      rw [entriesFrom_length ends fbo]
      omega
    simp only [hrange, if_false, Bool.false_eq_true, Int.toNat_natCast,
      entriesFrom_getD ends fbo he hf hchain i hi]
    have hstart : ¬((fbo :: ends).getD i 0 < fbo) :=
      Nat.not_lt.mpr (chain_le_getD fbo ends hchain i (by omega))
    simp only [serveBlock, hstart, if_false]
  · intro res d h hd
    simp only [newCompoundResourceReader, hwin, hlist] at h
    injection h with h
    subst h
    intro i hi
    have hrange : ¬((i : Int) < 0 ∨ ((entriesFrom fbo ends).length : Int) ≤ (i : Int)) := by
      rw [entriesFrom_length ends fbo]
      omega
    simp only [hrange, if_false, Int.toNat_natCast, hd,
      entriesFrom_getD ends fbo he hf hchain i hi]
    have hstart : ¬((fbo :: ends).getD i 0 < fbo) :=
      Nat.not_lt.mpr (chain_le_getD fbo ends hchain i (by omega))
    simp only [serveBlock, hstart, if_false]
    simp

/-- Claim C5, witness: The two-block table decodes to ranges `[14, 18)`
and `[18, 21)`, and the blocks served are `[1, 2, 3, 4]` and
`[5, 6, 7]`. -/
theorem compound_block_table_cumulative_witness :
    readBlockList cmpWindow = some (14, [⟨14, 4⟩, ⟨18, 3⟩]) ∧
    cmpRes.blockCount = 2 ∧
    cmpRes.blockFunc 0 = .ok (.ok [1, 2, 3, 4]) ∧
    cmpRes.blockFunc 1 = .ok (.ok [5, 6, 7]) := by
  have h := compound_block_table_cumulative idDecomp [18, 21] 14
    [1, 2, 3, 4, 5, 6, 7] [] [] cmpEntry 0 (by decide) (by decide)
    (by decide)
    (List.Chain.cons (by decide) (List.Chain.cons (by decide) List.Chain.nil))
    rfl
  have hres := h.2.2.2.1 cmpRes rfl
  exact ⟨h.1, hres.1, hres.2 0 (by decide), hres.2 1 (by decide)⟩

/-! ## Lemmas on the writer loop -/

/-- A prefix of provider entries that serializes without error
contributes its event trace unchanged when more entries follow. -/
theorem writeLoop_append :
    ∀ (pre rest : List (Nat × Except RErr ProvEntry)) (evs : List WEvent),
    writeLoop pre = (evs, none) →
    writeLoop (pre ++ rest) =
      (evs ++ (writeLoop rest).1, (writeLoop rest).2) := by
  intro pre
  induction pre with
  | nil =>
    intro rest evs h
    simp only [writeLoop] at h
    injection h with h1 h2
    subst h1
    simp only [List.nil_append]
  | cons x pre' ih =>
    intro rest evs h
    rcases x with ⟨id, exc⟩
    cases exc with
    | error e =>
      simp only [writeLoop] at h
      injection h with h1 h2
      exact Option.noConfusion h2
    | ok entry =>
      by_cases hcmp : entry.compound = true
      · rcases hcb : copyBlocksM entry.blocks with ⟨copied, cerr⟩
        cases cerr with
        | some e =>
          simp only [writeLoop, hcmp, if_true, hcb] at h
          injection h with h1 h2
          exact Option.noConfusion h2
        | none =>
          rcases hw : writeLoop pre' with ⟨t, e⟩
          simp only [writeLoop, hcmp, if_true, hcb, hw] at h
          injection h with h1 h2
          subst h1
          subst h2
          have ih' := ih rest t hw
          simp only [List.cons_append, writeLoop, hcmp, if_true, hcb, ih']
          simp [ih', List.append_assoc]
      · by_cases hlen : entry.blocks.length = 1
        · rcases hcb : copyBlocksM entry.blocks with ⟨copied, cerr⟩
          cases cerr with
          | some e =>
            simp only [writeLoop, hcmp, if_false, hlen, if_true, hcb] at h
            injection h with h1 h2
            exact Option.noConfusion h2
          | none =>
            rcases hw : writeLoop pre' with ⟨t, e⟩
            simp only [writeLoop, hcmp, if_false, hlen, if_true, hcb, hw] at h
            injection h with h1 h2
            subst h1
            subst h2
            have ih' := ih rest t hw
            simp only [List.cons_append, writeLoop, hcmp, if_false, hlen,
              if_true, hcb, ih']
            simp [ih', List.append_assoc]
        · simp only [writeLoop, hcmp, if_false, hlen] at h
          injection h with h1 h2
          exact Option.noConfusion h2

/-! ## Claim C9 -/

/-- Claim C9: When the convenience `Write` reaches a provider entry that
is non-compound with a block count other than exactly one, it returns
the `InvalidResourceShape` error for that id; the event trace is exactly
that of the successfully serialized preceding entries — nothing is
staged or written for the offending resource — and the remaining
entries are never processed. -/
theorem write_rejects_invalid_shape (pre : List (Nat × Except RErr ProvEntry))
    (id : Nat) (entry : ProvEntry)
    (post : List (Nat × Except RErr ProvEntry)) (evs : List WEvent)
    (hok : writeLoop pre = (evs, none))
    (hnc : entry.compound = false) (hbc : entry.blocks.length ≠ 1) :
    write (pre ++ (id, .ok entry) :: post) =
      (evs, some (.invalidResourceShape id)) := by
  unfold write
  rw [writeLoop_append pre ((id, .ok entry) :: post) evs hok]
  simp only [writeLoop, hnc, Bool.false_eq_true, if_false, hbc,
    List.append_nil]

/-- Claim C9, witness: A provider with a good compound entry (id 7), a
non-compound two-block entry (id 8), and a further entry (id 9)
serializes the id-7 events, then aborts with `InvalidResourceShape` for
id 8; id 9 is never reached. -/
theorem write_rejects_invalid_shape_witness :
    write [(7, .ok ⟨true, 1, false, [.ok [1, 2]]⟩),
           (8, .ok ⟨false, 0, false, [.ok [1], .ok [2]]⟩),
           (9, .ok ⟨true, 0, false, []⟩)] =
      ([.createCompound 7 1 false, .blockData [1, 2]],
        some (.invalidResourceShape 8)) :=
  write_rejects_invalid_shape [(7, .ok ⟨true, 1, false, [.ok [1, 2]]⟩)] 8
    ⟨false, 0, false, [.ok [1], .ok [2]]⟩ [(9, .ok ⟨true, 0, false, []⟩)]
    [.createCompound 7 1 false, .blockData [1, 2]] rfl rfl (by decide)

/-! ## Claim C8 -/

/-- Claim C8, counterexample: The claim's "exactly when" fails: a
compressed compound resource whose payload decompression fails returns
an error from `Block(0)` although `0` lies inside `[0, blockCount)`. -/
theorem block_error_inside_range_on_decompression_failure :
    newCompoundResourceReader failDecomp cmpWindow cmpEntry 0 true 0 =
      .ok cmpResFail ∧
    cmpResFail.blockCount = 2 ∧
    (0 : Int) < 2 ∧
    cmpResFail.blockFunc 0 = .error .decodeError := by
  exact ⟨rfl, rfl, by decide, rfl⟩

/-- Claim C8, amended: `Block(index)` always fails with the out-of-range
error when `index` lies outside `[0, blockCount)`: a compound resource
rejects any index below 0 or at or above its block count, and a simple
resource (block count 1) rejects every index other than 0.  An in-range
index succeeds, except that a *compressed* compound resource also fails
in range when the one-time whole-payload decompression fails (a simple
resource defers decompression to read time and its `Block(0)` call
itself never fails). -/
theorem block_index_out_of_range_errors (decomp : Decomp) (src : List Nat)
    (entry : DirEntry) (ct : Nat) (compressed : Bool) (off : Nat) :
    ((newSingleBlockResourceReader decomp src entry ct compressed off).blockCount
        = 1 ∧
      ∀ index : Int,
        (index ≠ 0 →
          (newSingleBlockResourceReader decomp src entry ct compressed
            off).blockFunc index = .error (.blockIndexWrong index 1)) ∧
        (index = 0 → ∃ v,
          (newSingleBlockResourceReader decomp src entry ct compressed
            off).blockFunc index = .ok v)) ∧
    (∀ res, newCompoundResourceReader decomp src entry ct compressed off =
        .ok res →
      ∀ index : Int,
        ((index < 0 ∨ (res.blockCount : Int) ≤ index) →
          res.blockFunc index = .error (.blockIndexWrong index res.blockCount)) ∧
        (¬(index < 0 ∨ (res.blockCount : Int) ≤ index) → compressed = false →
          ∃ v, res.blockFunc index = .ok v) ∧
        (¬(index < 0 ∨ (res.blockCount : Int) ≤ index) →
          (∀ bs e, decomp bs ≠ .error e) →
          ∃ v, res.blockFunc index = .ok v)) := by
  constructor
  · refine ⟨rfl, ?_⟩
    intro index
    constructor
    · intro hne
      simp only [newSingleBlockResourceReader, if_pos hne]
    · intro h0
      subst h0
      cases compressed with
      | false => exact ⟨_, rfl⟩
      | true => exact ⟨_, rfl⟩
  · intro res h
    cases hlist : readBlockList ((src.drop off).take entry.packedLength) with
    | none => simp only [newCompoundResourceReader, hlist] at h; cases h
    | some p =>
      rcases p with ⟨fbo, blockList⟩
      simp only [newCompoundResourceReader, hlist] at h
      injection h with h
      subst h
      intro index
      refine ⟨?_, ?_, ?_⟩
      · intro hout
        simp only [if_pos hout]
      · intro hin hcf
        subst hcf
        simp only [if_neg hin, Bool.false_eq_true, if_false]
        exact ⟨_, rfl⟩
      · intro hin hok
        simp only [if_neg hin]
        cases compressed with
        | false => exact ⟨_, rfl⟩
        | true =>
          simp only [if_pos rfl]
          cases hd : decomp (((src.drop off).take entry.packedLength).drop fbo) with
          | error e => exact absurd hd (hok _ e)
          | ok d => exact ⟨_, rfl⟩

/-- Claim C8, witness: The simple resource rejects index 5 and serves
index 0; the uncompressed compound resource over `cmpWindow` rejects
index −1 and serves index 0. -/
theorem block_index_out_of_range_errors_witness :
    resSimple.blockFunc 5 = .error (.blockIndexWrong 5 1) ∧
    (∃ v, resSimple.blockFunc 0 = .ok v) ∧
    cmpRes.blockFunc (-1) = .error (.blockIndexWrong (-1) cmpRes.blockCount) ∧
    (∃ v, cmpRes.blockFunc 0 = .ok v) := by
  have hs := (block_index_out_of_range_errors idDecomp [1, 1, 1] entrySimple
    entrySimple.contentType (entrySimple.typeFlags.testBit 0) 0).1
  have hc := (block_index_out_of_range_errors idDecomp cmpWindow cmpEntry 0
    false 0).2 cmpRes rfl
  exact ⟨(hs.2 5).1 (by decide), (hs.2 0).2 rfl,
    (hc (-1)).1 (by decide), (hc 0).2.1 (by decide) rfl⟩

/-! ## Claim C3 -/

/-- Claim C3: `ReaderFrom` construction is atomic: a nil source yields a
nil reader and the `SourceNil` error before any I/O; a mismatch of the
magic string or the comment-terminator byte yields a nil reader and the
`FormatMismatch` error; a directory decode failure yields a nil reader
and that error; and in every failure case the reader is nil — no
partially valid reader is ever returned. -/
theorem readerFrom_fails_atomically (hdr : List Nat) (term pos : Nat) :
    readerFrom hdr term pos none = (none, some .sourceNil) ∧
    (∀ src, (zeroPad (src.take pos) pos).take (hdr ++ [term]).length ≠
        hdr ++ [term] →
      readerFrom hdr term pos (some src) = (none, some .formatMismatch)) ∧
    (∀ src dirOffset e, readAndVerifyHeader hdr term pos src = .ok dirOffset →
      readDirectoryAt dirOffset src = .error e →
      readerFrom hdr term pos (some src) = (none, some e)) ∧
    (∀ src e, (readerFrom hdr term pos (some src)).2 = some e →
      (readerFrom hdr term pos (some src)).1 = none) := by
  refine ⟨rfl, ?_, ?_, ?_⟩
  · intro src h
    simp only [readerFrom, readAndVerifyHeader, if_neg h]
  · intro src dirOffset e h1 h2
    simp only [readerFrom, h1, h2]
  · intro src e h
    cases hh : readAndVerifyHeader hdr term pos src with
    | error e' => simp only [readerFrom, hh]
    | ok dirOffset =>
      cases hd : readDirectoryAt dirOffset src with
      | error e' => simp only [readerFrom, hh, hd]
      | ok p =>
        rcases p with ⟨fro, dir⟩
        simp only [readerFrom, hh, hd] at h
        cases h

/-- Claim C3, witness: A two-byte garbage source fails with
`FormatMismatch`; `srcBadDir` passes header validation, fails directory
decoding with a decode error, and yields a nil reader. -/
theorem readerFrom_fails_atomically_witness :
    readerFrom [76, 71] 26 8 (some [9, 9]) = (none, some .formatMismatch) ∧
    readerFrom [76, 71] 26 8 (some srcBadDir) = (none, some .decodeError) ∧
    (readerFrom [76, 71] 26 8 (some srcBadDir)).1 = none := by
  have h := readerFrom_fails_atomically [76, 71] 26 8
  exact ⟨h.2.1 [9, 9] (by decide),
    h.2.2.1 srcBadDir 100 .decodeError rfl rfl,
    h.2.2.2 srcBadDir .decodeError rfl⟩

/-! ## Claim C1 -/

/-- Claim C1, counterexample: The claim says a layer whose block has a
*zero leading byte* is skipped, so a single-layer stack whose block 0 is
`[0x00, 0x07]` should merge to an absent block.  The code only checks
that the peek read one byte (`read == 1`), so the zero-leading block is
returned, not skipped. -/
theorem merger_block_zero_leading_byte_is_returned :
    layerZeroLead.peek 0 = Except.ok [0, 7] ∧
    List.head? [0, 7] = some 0 ∧
    mergerBlock [layerZeroLead] 0 = (some [0, 7], none) ∧
    mergerBlock [layerZeroLead] 0 ≠ (none, none) := by
  refine ⟨rfl, rfl, rfl, ?_⟩
  decide

/-- Claim C1, amended: The merged `Block(index)` scans layers from
highest to lowest priority and returns a freshly re-opened reader over
the block of the first (highest) layer whose block at that index is
*non-empty* (the peek call succeeds and reads one byte); a layer whose
block is empty, or whose `Block(index)` call fails, is skipped and
resolution continues to the next lower layer.  Stated for layers whose
streams are deterministic (re-opening reproduces the peeked stream),
which is what re-opening presupposes. -/
theorem merger_block_scan_first_nonempty_wins (list : List MergeLayer)
    (index : Int) (hcons : ∀ l ∈ list, consistentAt l index) :
    mergerBlock list index =
      ((list.reverse.find? (fun l => layerProvides l index)).bind
        (fun l => layerReopened l index), none) := by
  unfold mergerBlock
  exact mergerBlockLoop_consistent index list.reverse
    (fun l hl => hcons l (List.mem_reverse.mp hl))

/-- Claim C1, witness: The spec's own merge example: `L0`'s block 0 is all
zeros, `L1`'s is `[0x09, 0x01]`; the merged block 0 is `[0x09, 0x01]`. -/
theorem merger_block_scan_first_nonempty_wins_witness :
    mergerBlock [layerZeroLead, layerNine] 0 = (some [9, 1], none) := by
  have h := merger_block_scan_first_nonempty_wins [layerZeroLead, layerNine] 0
    (by intro l hl; fin_cases hl <;> rfl)
  rw [h]
  rfl

/-! ## Claim C6 -/

/-- Claim C6: When no layer passes the peek test at `index` (every layer's
block there is empty or fails to open), the merged `Block(index)`
returns the absent block: a `nil` reader together with a `nil` error —
no error kind is raised for the unresolved index. -/
theorem merger_block_unresolved_is_absent_no_error (list : List MergeLayer)
    (index : Int) (h : ∀ l ∈ list, layerProvides l index = false) :
    mergerBlock list index = (none, none) := by
  unfold mergerBlock
  exact mergerBlockLoop_all_skip index list.reverse
    (fun l hl => h l (List.mem_reverse.mp hl)) none

/-- Claim C6, witness: A stack of an all-empty layer and a layer whose
`Block` calls fail resolves block 3 to `(nil, nil)`. -/
theorem merger_block_unresolved_is_absent_no_error_witness :
    mergerBlock [layerEmpty, layerPeekErr] 3 = (none, none) :=
  merger_block_unresolved_is_absent_no_error [layerEmpty, layerPeekErr] 3
    (by decide)

/-! ## Claim C7 -/

/-- Claim C7: For a non-empty layer stack, the merged view's `Compound`,
`ContentType` and `Compressed` equal those of the lowest-priority layer
(index 0), whatever the higher layers carry, and `BlockCount` is the
maximum block count across all layers. -/
theorem merger_metadata_lowest_blockcount_max (l : MergeLayer)
    (rest : List MergeLayer) :
    mergerCompound (l :: rest) = l.Compound ∧
    mergerContentType (l :: rest) = l.ContentType ∧
    mergerCompressed (l :: rest) = l.Compressed ∧
    (∀ x ∈ l :: rest, x.BlockCount ≤ mergerBlockCount (l :: rest)) ∧
    (∃ x ∈ l :: rest, mergerBlockCount (l :: rest) = x.BlockCount) := by
  refine ⟨rfl, rfl, rfl, ?_, ?_⟩
  · intro x hx
    exact (blockCountFold_le (l :: rest) 0).2 x hx
  · rcases blockCountFold_mem (l :: rest) 0 with h | h
    · refine ⟨l, List.mem_cons_self l rest, ?_⟩
      have hle := (blockCountFold_le (l :: rest) 0).2 l (List.mem_cons_self l rest)
      unfold mergerBlockCount
      omega
    · exact h

/-- Claim C7, witness: With a simple base layer and a compound 5-block
override layer, the metadata comes from the base and the block count is
5 (attained by the override layer). -/
theorem merger_metadata_lowest_blockcount_max_witness :
    mergerCompound [layerNine, layerCount5] = layerNine.Compound ∧
    layerCount5.BlockCount ≤ mergerBlockCount [layerNine, layerCount5] ∧
    ∃ x ∈ [layerNine, layerCount5],
      mergerBlockCount [layerNine, layerCount5] = x.BlockCount := by
  have h := merger_metadata_lowest_blockcount_max layerNine [layerCount5]
  exact ⟨h.1, h.2.2.2.1 layerCount5
    (List.mem_cons_of_mem _ (List.mem_cons_self _ _)), h.2.2.2.2⟩

/-! ## Claim C10 -/

/-- Claim C10: An error from a layer's `Block(index)` call during the peek
phase is silently discarded: the layer behaves exactly as if it lacked
that index, and resolution continues.  Consequently the only error the
merged `Block` can return originates from re-opening the block of a
layer whose peek already succeeded on a non-empty block. -/
theorem merger_block_peek_error_discarded_error_from_reopen :
    (∀ (index : Int) (l : MergeLayer) (e : RErr), l.peek index = .error e →
      ∀ list1 list2 : List MergeLayer,
      mergerBlock (list1 ++ l :: list2) index =
        mergerBlock (list1 ++ list2) index) ∧
    (∀ (list : List MergeLayer) (index : Int) (e : RErr),
      (mergerBlock list index).2 = some e →
      ∃ l ∈ list, ∃ bs, l.peek index = .ok bs ∧ bs ≠ [] ∧
        l.reopen index = .error e) := by
  constructor
  · intro index l e hl list1 list2
    unfold mergerBlock
    rw [List.reverse_append, List.reverse_append, List.reverse_cons,
      List.append_assoc, List.singleton_append]
    exact mergerBlockLoop_drop_error index l e hl list2.reverse
      list1.reverse none
  · intro list index e h
    unfold mergerBlock at h
    rcases mergerBlockLoop_error_source index list.reverse none e h with
      h1 | ⟨l, hmem, hrest⟩
    · cases h1
    · exact ⟨l, List.mem_reverse.mp hmem, hrest⟩

/-- Claim C10, witness: Dropping a peek-erroring top layer does not change
the merge result, and a stack whose only layer re-opens with `ioError 2`
after a successful peek makes the merged `Block` return exactly that
re-open error. -/
theorem merger_block_peek_error_discarded_witness :
    mergerBlock [layerNine, layerPeekErr] 0 = mergerBlock [layerNine] 0 ∧
    ∃ l ∈ [layerReopenErr], ∃ bs, l.peek 0 = Except.ok bs ∧ bs ≠ [] ∧
      l.reopen 0 = Except.error (.ioError 2) := by
  have h := merger_block_peek_error_discarded_error_from_reopen
  exact ⟨h.1 0 layerPeekErr (.ioError 1) rfl [layerNine] [],
    h.2 [layerReopenErr] 0 (.ioError 2) rfl⟩

end LgRes
